import Mathlib

/-!
Verification development for the `parcel-transformer-minify-literals` repository.

The TypeScript sources are shallowly embedded here. JavaScript strings are
modelled as `List Char` (`Str`); JavaScript's builtin string operations
(`includes`, `split`, `join`, `endsWith`, `indexOf`, first-occurrence
`replace`) are given executable Lean models with the same semantics.
Throwing/async functions are modelled as `Except Str` computations; the
sequential `Except` pipeline models `Promise.all` rejection behaviour
(any per-template failure rejects the whole-source operation).

External collaborators that are not part of this repository's sources
(`parse-literals`, `magic-string`, `html-minifier-terser`, `clean-css`) are
modelled as injected parameters, exactly as the orchestrator's options
surface allows (`options.parseLiterals`, `options.MagicString`,
`options.strategy`); the `clean-css` backend of the default `minifyCSS` is
an explicit function argument producing an output record of errors,
warnings and styles.
-/

/-- JavaScript strings are modelled as lists of characters. -/
abbrev Str := List Char

/-- Model of JavaScript `s.includes(sub)`: `sub` occurs as a contiguous
substring of `s`. -/
def includes : Str → Str → Bool
  | [], sub => sub.isEmpty
  | c :: rest, sub => sub.isPrefixOf (c :: rest) || includes rest sub

/-- Model of JavaScript `Array.prototype.join(sep)` on an array of strings:
the parts concatenated with `sep` inserted between consecutive parts. -/
def joinSep (sep : Str) : List Str → Str
  | [] => []
  | [t] => t
  | t :: rest => t ++ sep ++ joinSep sep rest

/-- One scanning pass for the model of JavaScript `String.prototype.split`:
returns the piece of `s` before the first occurrence of `sep`, together
with the remainder after that occurrence (`none` when `sep` does not
occur). -/
def splitChunk (sep : Str) : Str → Str × Option Str
  | [] => ([], none)
  | c :: rest =>
    if sep.isPrefixOf (c :: rest) then ([], some ((c :: rest).drop sep.length))
    else
      let r := splitChunk sep rest
      (c :: r.1, r.2)

/-- Iterated splitting; `fuel` bounds the number of produced pieces.
`splitOnStr` always supplies sufficient fuel, so the `0` case is
unreachable there. -/
def splitLoop (sep : Str) : Nat → Str → List Str
  | 0, s => [s]
  | fuel + 1, s =>
    match splitChunk sep s with
    | (piece, none) => [piece]
    | (piece, some rem) => piece :: splitLoop sep fuel rem

/-- Model of JavaScript `s.split(sep)` for a string separator: repeated
non-overlapping leftmost splitting; an empty separator splits into single
characters. -/
def splitOnStr (sep s : Str) : List Str :=
  if sep.isEmpty then s.map (fun c => [c])
  else splitLoop sep (s.length + 1) s

/-- Model of JavaScript `s.indexOf(sub)` (auxiliary, carrying the current
index). -/
def indexOfStrAux (sub : Str) : Str → Nat → Option Nat
  | [], i => if sub.isEmpty then some i else none
  | c :: rest, i =>
    if sub.isPrefixOf (c :: rest) then some i else indexOfStrAux sub rest (i + 1)

/-- Model of JavaScript `s.indexOf(sub)`: index of the first occurrence,
`none` standing for JavaScript's `-1`. -/
def indexOfStr (s sub : Str) : Option Nat :=
  indexOfStrAux sub s 0

/-- Model of JavaScript `s.replace(target, replacement)` with a string
pattern: replaces the first occurrence only. -/
def replaceFirst (s target replacement : Str) : Str :=
  match indexOfStr s target with
  | none => s
  | some i => s.take i ++ replacement ++ s.drop (i + target.length)

/-- Model of JavaScript `String.prototype.toLowerCase` (ASCII-accurate;
the tags this repository classifies by are ASCII). -/
def toLowerStr (s : Str) : Str := s.map Char.toLower

/-- `TemplatePart` from `parse-literals`: one literal segment, with its
half-open offset range in the original source. The source calls the second
offset `end`, a Lean keyword, so it is named `stop` here. -/
structure TemplatePart where
  start : Nat
  stop : Nat
  text : Str
deriving DecidableEq, Repr

/-- `Template` from `parse-literals`: one tagged-template occurrence, an
optional tag name plus its ordered literal segments. -/
structure Template where
  tag : Option Str
  parts : List TemplatePart
deriving DecidableEq, Repr

/-- `const suffix = '();'` from the default strategy's `getPlaceholder`. -/
def placeholderSuffix : Str := "();".data

/-- `'@TEMPLATE_EXPRESSION'`, the initial candidate of the default
strategy's `getPlaceholder`. -/
def placeholderBase : Str := "@TEMPLATE_EXPRESSION".data

/-- The retest loop of the default strategy's `getPlaceholder`:

    while (parts.some((part) => part.text.includes(placeholder + suffix))) {
      placeholder += '_'
    }
    return placeholder + suffix

The loop is given here with a fuel argument; `getPlaceholder` supplies
`maxTextLen parts + 1`, which is proved sufficient below (a candidate
longer than every part's text cannot occur in one), so the fuel-exhausted
branch is unreachable. -/
def getPlaceholderLoop (parts : List TemplatePart) : Nat → Str → Str
  | fuel, placeholder =>
    if parts.any (fun part => includes part.text (placeholder ++ placeholderSuffix)) then
      match fuel with
      | 0 => placeholder ++ placeholderSuffix
      | fuel' + 1 => getPlaceholderLoop parts fuel' (placeholder ++ ['_'])
    else placeholder ++ placeholderSuffix

/-- Length of the longest part text; used only to bound the retest loop. -/
def maxTextLen (parts : List TemplatePart) : Nat :=
  (parts.map (fun p => p.text.length)).foldr Nat.max 0

/-- The default strategy's `getPlaceholder`. -/
def getPlaceholder (parts : List TemplatePart) : Str :=
  getPlaceholderLoop parts (maxTextLen parts + 1) placeholderBase

/-- The default strategy's `combineHTMLStrings`:
`parts.map((part) => part.text).join(placeholder)`. -/
def combineHTMLStrings (parts : List TemplatePart) (placeholder : Str) : Str :=
  joinSep placeholder (parts.map (fun part => part.text))

/-- The default strategy's `splitHTMLByPlaceholder`: split on the
placeholder; when the placeholder ends in a semicolon additionally split
every piece on the placeholder without its final semicolon (the source
performs the second pass with an index-descending `splice` loop, which
replaces each piece in place by its split — that in-place expansion is
exactly `flatMap`). -/
def splitHTMLByPlaceholder (html placeholder : Str) : List Str :=
  let parts := splitOnStr placeholder html
  if placeholder.getLast? = some ';' then
    parts.flatMap (fun part => splitOnStr placeholder.dropLast part)
  else parts

/-- The one-character class of the regex `.` in the fixup pattern: any
character except a line terminator. -/
def isDotChar (c : Char) : Bool :=
  !(c == '\n' || c == '\r' || c.toNat == 0x2028 || c.toNat == 0x2029)

/-- The character class `\s` of JavaScript regexes (whitespace, including
the Unicode space separators). -/
def isWsChar (c : Char) : Bool :=
  c == ' ' || c == '\t' || c == '\n' || c == '\r' || c == '\x0b' || c == '\x0c' ||
  c.toNat == 0xa0 || c.toNat == 0x1680 || (0x2000 ≤ c.toNat && c.toNat ≤ 0x200a) ||
  c.toNat == 0x2028 || c.toNat == 0x2029 || c.toNat == 0x202f || c.toNat == 0x205f ||
  c.toNat == 0x3000 || c.toNat == 0xfeff

/-- Length of the longest prefix of `s` whose characters all satisfy `p`. -/
def runLen (p : Char → Bool) : Str → Nat
  | [] => 0
  | c :: rest => if p c then runLen p rest + 1 else 0

/-- The list `[n, n-1, ..., 0]`; used to enumerate greedy quantifier
lengths in descending (backtracking) order. -/
def descRange (n : Nat) : List Nat := (List.range (n + 1)).reverse

/-- Matcher for the tail `.+\((.*)\)[\s\r\n]*\x7b` of the fixup regex
against a prefix of `t2`, with the greedy backtracking order of a
JavaScript regex engine (`.+` longest first, then `(.*)` longest first).
Returns the consumed length, the text matched by `.+\((.*)\)` and the text
of the inner capture group. -/
def matchParens (t2 : Str) : Option (Nat × Str × Str) :=
  ((descRange (runLen isDotChar t2)).dropLast).findSome? fun a =>
    if t2[a]? = some '(' then
      let t3 := t2.drop (a + 1)
      (descRange (runLen isDotChar t3)).findSome? fun b =>
        if t3[b]? = some ')' then
          let t4 := t3.drop (b + 1)
          let w := runLen isWsChar t4
          if t4[w]? = some '\x7b' then
            some (a + 1 + b + 1 + w + 1, t2.take (a + 1 + b + 1), t3.take b)
          else none
        else none
    else none

/-- Matcher for the full fixup regex `(::?.+\((.*)\))[\s\r\n]*\x7b` at the
start of `t` (the optional second colon is greedy, with backtracking).
Returns the consumed length, capture group 1 (the pseudo class) and
capture group 2 (its parameters). -/
def matchPseudo : Str → Option (Nat × Str × Str)
  | ':' :: t1 =>
    let two :=
      match t1 with
      | ':' :: t2 =>
        (matchParens t2).map (fun (r : Nat × Str × Str) => (2 + r.1, ':' :: ':' :: r.2.1, r.2.2))
      | _ => none
    match two with
    | some r => some r
    | none =>
      (matchParens t1).map (fun (r : Nat × Str × Str) => (1 + r.1, ':' :: r.2.1, r.2.2))
  | _ => none

/-- Model of `regex.exec` with the `g` flag: first match of the fixup
regex at a position `≥ i` (auxiliary, scanning a suffix). Returns match
start, match end, group 1 and group 2. -/
def execPseudoAux : Str → Nat → Option (Nat × Nat × Str × Str)
  | [], _ => none
  | c :: rest, i =>
    match matchPseudo (c :: rest) with
    | some r => some (i, i + r.1, r.2.1, r.2.2)
    | none => execPseudoAux rest (i + 1)

/-- Model of `regex.exec` on `s` starting from `lastIndex = i`. -/
def execPseudo (s : Str) (i : Nat) : Option (Nat × Nat × Str × Str) :=
  execPseudoAux (s.drop i) i

/-- The `while ((match = regex.exec(original)) != null)` loop of
`fixCleanCssTidySelectors`. Every match has positive length, so the
`lastIndex` strictly increases and `original.length + 1` units of fuel are
sufficient. -/
def fixLoop (original : Str) : Nat → Nat → Str → Str
  | 0, _, result => result
  | fuel + 1, lastIndex, result =>
    match execPseudo original lastIndex with
    | none => result
    | some (_, stop, pseudoClass, parameters) =>
      if parameters.any isWsChar then
        let parametersWithoutSpaces := parameters.filter (fun c => !isWsChar c)
        let resultPseudoClass := replaceFirst pseudoClass parameters parametersWithoutSpaces
        match indexOfStr result resultPseudoClass with
        | none => fixLoop original fuel stop result
        | some idx =>
          fixLoop original fuel stop
            (result.take idx ++ pseudoClass ++ result.drop (idx + resultPseudoClass.length))
      else fixLoop original fuel stop result

/-- `fixCleanCssTidySelectors(original, result)`: for every
functional-pseudo-class match in `original` whose parameters contain
whitespace, find the despaced form in `result` and restore the original
spaced parameters. -/
def fixCleanCssTidySelectors (original result : Str) : Str :=
  fixLoop original (original.length + 1) 0 result

/-- Model of the clean-css level-2 configuration object
`(all: false, removeDuplicateRules: true)`: `all` sets every level-2
transform at once, `removeDuplicateRules` re-enables that single one.
Absent keys are `none`. -/
structure Level2Settings where
  all : Option Bool
  removeDuplicateRules : Option Bool
deriving DecidableEq, Repr

/-- Model of the clean-css `level` option: either a numeric level or an
object carrying a level-2 configuration. -/
inductive CSSLevel where
  | num (n : Nat)
  | settings (level2 : Option Level2Settings)
deriving DecidableEq, Repr

/-- Model of the caller-facing clean-css options object: the `level`
field (the only field this repository rewrites), the `returnPromise` flag
it adds, and the remaining caller-supplied fields, opaque to this code and
preserved by object spread. -/
structure CSSOptions where
  level : Option CSSLevel
  returnPromise : Bool
  rest : List (Str × Str)
deriving DecidableEq, Repr

/-- `adjustMinifyCSSOptions(options)`: spreads the caller's options and
unconditionally replaces `level` by
`(2: (all: false, removeDuplicateRules: true))`. The source also binds a
local `level` and a `plugin` object, but both are dead: neither appears in
the returned object. -/
def adjustMinifyCSSOptions (options : CSSOptions) : CSSOptions :=
  { options with
    level := some (CSSLevel.settings (some { all := some false, removeDuplicateRules := some true })) }

/-- The output record of the external clean-css backend's `minify`. -/
structure CleanCSSOutput where
  errors : List Str
  warnings : List Str
  styles : Str

/-- Model of `css.replace(/(\n)|(\r)|(  )/g, '')`: a single left-to-right
pass deleting every newline, carriage return and (non-overlapping) double
space. -/
def stripNewlinesAndDoubleSpaces : Str → Str
  | [] => []
  | '\n' :: rest => stripNewlinesAndDoubleSpaces rest
  | '\r' :: rest => stripNewlinesAndDoubleSpaces rest
  | ' ' :: ' ' :: rest => stripNewlinesAndDoubleSpaces rest
  | c :: rest => c :: stripNewlinesAndDoubleSpaces rest

/-- The default strategy's `minifyCSS`, with the external clean-css
backend injected as `cleanCSS` (the source constructs
`new CleanCSS(...).minify(css)`; the model applies `cleanCSS` to the same
adjusted options, with `returnPromise` set, and to the same input). Hard
errors abort with the messages joined by blank lines; warnings fall back
to a degraded minification of the original input. -/
def minifyCSS (cleanCSS : CSSOptions → Str → CleanCSSOutput) (css : Str)
    (options : CSSOptions) : Except Str Str :=
  let adjusted := adjustMinifyCSSOptions options
  let output := cleanCSS { adjusted with returnPromise := true } css
  if !output.errors.isEmpty then
    Except.error (joinSep ("\n\n".data) output.errors)
  else if !output.warnings.isEmpty then
    Except.ok (fixCleanCssTidySelectors css (stripNewlinesAndDoubleSpaces css))
  else Except.ok (fixCleanCssTidySelectors css output.styles)

/-- The value of the `minifyCSS` key inside the caller's html-minifier
options: absent (`undef`), the booleans, an options object, or a custom
minification function, mirroring the `typeof` dispatch in the orchestrator. -/
inductive MinifyCSSSetting where
  | undef
  | boolTrue
  | boolFalse
  | obj (o : CSSOptions)
  | custom (f : Str → Str)

/-- Model of the html-minifier options object as the orchestrator sees it:
it only ever inspects the `minifyCSS` key; the remaining keys are opaque
pass-through data for the strategy. -/
structure HTMLOptionsM where
  minifyCSS : MinifyCSSSetting
  collapseWhitespace : Bool
  rest : List (Str × Str)

/-- The `Validation` interface of `types.ts`: both checks throw (modelled
as `Except.error`) on invalid data. -/
structure Validation where
  ensurePlaceholderValid : Str → Except Str Unit
  ensureHTMLPartsValid : List TemplatePart → List Str → Except Str Unit

/-- The `Strategy` interface of `types.ts`. `minifyCSS` is the one
optional operation. The minifiers may throw, hence `Except`. -/
structure Strategy where
  getPlaceholder : List TemplatePart → Str
  combineHTMLStrings : List TemplatePart → Str → Str
  minifyHTML : Str → HTMLOptionsM → Except Str Str
  minifyCSS : Option (Str → Option CSSOptions → Except Str Str)
  splitHTMLByPlaceholder : Str → Str → List Str

/-- `defaultValidation` from `index.ts`. In the model a placeholder is
always a string, so `ensurePlaceholderValid` can only fail on emptiness;
`ensureHTMLPartsValid` fails exactly when the split count differs from the
part count (the source appends a `JSON.stringify` dump to the message,
elided here). -/
def defaultValidation : Validation where
  ensurePlaceholderValid := fun placeholder =>
    if placeholder.isEmpty then
      Except.error ("getPlaceholder() must return a non-empty string".data)
    else Except.ok ()
  ensureHTMLPartsValid := fun parts htmlParts =>
    if parts.length ≠ htmlParts.length then
      Except.error
        ("splitHTMLByPlaceholder() must return same number of strings as template parts".data)
    else Except.ok ()

/-- The `validate` option: absent (default validation), a custom
validation, or `false` (disabled). -/
inductive ValidateSetting where
  | default
  | custom (v : Validation)
  | disabled

/-- Resolution of the `validate` option performed by `minifyHTMLLiterals`:
`if (options.validate !== false) validate = options.validate || defaultValidation`. -/
def ValidateSetting.resolve : ValidateSetting → Option Validation
  | .default => some defaultValidation
  | .custom v => some v
  | .disabled => none

/-- `defaultShouldMinify(template)`: the tag, lowercased, exists and
contains "html" or "svg". -/
def defaultShouldMinify (template : Template) : Bool :=
  match template.tag with
  | none => false
  | some tag =>
    includes (toLowerStr tag) ("html".data) || includes (toLowerStr tag) ("svg".data)

/-- `defaultShouldMinifyCSS(template)`: the tag, lowercased, exists and
contains "css". -/
def defaultShouldMinifyCSS (template : Template) : Bool :=
  match template.tag with
  | none => false
  | some tag => includes (toLowerStr tag) ("css".data)

/-- The fully-resolved configuration `minifyHTMLLiterals` runs with after
its option-defaulting preamble: the literal parser (the external
`parse-literals` collaborator or the caller's override), the strategy
(the caller's or the default), the two classification predicates, the
merged html-minifier options, the `validate` setting and the source-map
toggle. -/
structure Config where
  parseLiterals : Str → List Template
  strategy : Strategy
  shouldMinify : Template → Bool
  shouldMinifyCSS : Template → Bool
  minifyOptions : HTMLOptionsM
  validate : ValidateSetting
  generateSourceMap : Bool

/-- One overwrite record of the magic-string edit buffer:
`ms.overwrite(start, end, content)`. The source's `end` is named `stop`. -/
structure Overwrite where
  start : Nat
  stop : Nat
  content : Str
deriving DecidableEq, Repr

/-- Splice one overwrite into the source text. -/
def applyOverwrite (s : Str) (ow : Overwrite) : Str :=
  s.take ow.start ++ ow.content ++ s.drop ow.stop

/-- Insertion step for ordering overwrites by descending start offset. -/
def insertDesc (ow : Overwrite) : List Overwrite → List Overwrite
  | [] => [ow]
  | o :: rest => if o.start ≤ ow.start then ow :: o :: rest else o :: insertDesc ow rest

/-- Order overwrites by descending start offset (insertion sort). -/
def sortDescByStart : List Overwrite → List Overwrite
  | [] => []
  | o :: rest => insertDesc o (sortDescByStart rest)

/-- Model of `ms.toString()` of the external magic-string collaborator:
render the original text with all recorded (disjoint) overwrites applied;
applying them in descending start order keeps earlier offsets valid. -/
def render (source : Str) (ows : List Overwrite) : Str :=
  (sortDescByStart ows).foldl applyOverwrite source

/-- The classification guard of the per-template closure:
`minifyHTML || minifyCSS` with
`minifyHTML = !skipHTML && shouldMinify(template)` and
`minifyCSS = !skipCSS && strategy.minifyCSS && shouldMinifyCSS(template)`. -/
def templateSelected (cfg : Config) (skipHTML skipCSS : Bool) (template : Template) : Bool :=
  (!skipHTML && cfg.shouldMinify template) ||
  (!skipCSS && cfg.strategy.minifyCSS.isSome && cfg.shouldMinifyCSS template)

/-- Whether the template goes down the CSS branch of the pipeline. -/
def wantsCSS (cfg : Config) (skipCSS : Bool) (template : Template) : Bool :=
  !skipCSS && cfg.strategy.minifyCSS.isSome && cfg.shouldMinifyCSS template

/-- The minification step of the per-template closure: on the CSS branch,
dispatch on the caller's `minifyOptions.minifyCSS` (custom function,
`false`, options object, or absent/`true`); otherwise call the strategy's
`minifyHTML`. Calling an absent `strategy.minifyCSS` is the JavaScript
`TypeError` of invoking `undefined`. -/
def minifyStep (strategy : Strategy) (opts : HTMLOptionsM) (wantCSS : Bool)
    (combined : Str) : Except Str Str :=
  if wantCSS then
    match opts.minifyCSS with
    | .custom f => Except.ok (f combined)
    | .boolFalse => Except.ok combined
    | .obj o =>
      match strategy.minifyCSS with
      | some f => f combined (some o)
      | none => Except.error ("TypeError: strategy.minifyCSS is not a function".data)
    | _ =>
      match strategy.minifyCSS with
      | some f => f combined none
      | none => Except.error ("TypeError: strategy.minifyCSS is not a function".data)
  else strategy.minifyHTML combined opts

/-- The overwrite-recording loop of the per-template closure:

    for (let [index, part] of template.parts.entries()) {
      if (part.start < part.end)
        ms.overwrite(part.start, part.end, minParts[index]!)
    }

Reading past the end of `minParts` is JavaScript `undefined`, which
magic-string rejects (modelled as an error). -/
def collectOverwritesAux (minParts : List Str) : List TemplatePart → Nat → Except Str (List Overwrite)
  | [], _ => Except.ok []
  | part :: restParts, index =>
    if part.start < part.stop then
      match minParts[index]? with
      | some content =>
        match collectOverwritesAux minParts restParts (index + 1) with
        | Except.error e => Except.error e
        | Except.ok tail =>
          Except.ok ({ start := part.start, stop := part.stop, content := content } :: tail)
      | none => Except.error ("TypeError: replacement content must be a string".data)
    else collectOverwritesAux minParts restParts (index + 1)

/-- All overwrites recorded for one template's parts. -/
def collectOverwrites (parts : List TemplatePart) (minParts : List Str) :
    Except Str (List Overwrite) :=
  collectOverwritesAux minParts parts 0

/-- The per-template async closure inside `minifyHTMLLiterals`: skip
unselected templates, derive and validate the placeholder, combine the
parts, minify, split back, validate the part count, and record the
overwrites. A thrown error rejects the template's promise. -/
def processTemplate (cfg : Config) (skipHTML skipCSS : Bool) (template : Template) :
    Except Str (List Overwrite) :=
  if templateSelected cfg skipHTML skipCSS template then
    let placeholder := cfg.strategy.getPlaceholder template.parts
    match (match cfg.validate.resolve with
           | some v => v.ensurePlaceholderValid placeholder
           | none => Except.ok ()) with
    | Except.error e => Except.error e
    | Except.ok _ =>
      let combined := cfg.strategy.combineHTMLStrings template.parts placeholder
      match minifyStep cfg.strategy cfg.minifyOptions (wantsCSS cfg skipCSS template) combined with
      | Except.error e => Except.error e
      | Except.ok min =>
        let minParts := cfg.strategy.splitHTMLByPlaceholder min placeholder
        match (match cfg.validate.resolve with
               | some v => v.ensureHTMLPartsValid template.parts minParts
               | none => Except.ok ()) with
        | Except.error e => Except.error e
        | Except.ok _ => collectOverwrites template.parts minParts
  else Except.ok []

/-- Sequential model of `await Promise.all(templates.map(...))`: each
template contributes its overwrites; any rejection rejects the whole
operation. -/
def processTemplates (cfg : Config) (skipHTML skipCSS : Bool) :
    List Template → Except Str (List Overwrite)
  | [] => Except.ok []
  | template :: rest =>
    match processTemplate cfg skipHTML skipCSS template with
    | Except.error e => Except.error e
    | Except.ok ows =>
      match processTemplates cfg skipHTML skipCSS rest with
      | Except.error e => Except.error e
      | Except.ok owsRest => Except.ok (ows ++ owsRest)

/-- The `unsafeCSS` escape marker searched for in the whole source. -/
def unsafeCSSMarker : Str := "unsafeCSS".data

/-- The `unsafeHTML` escape marker searched for in the whole source. -/
def unsafeHTMLMarker : Str := "unsafeHTML".data

/-- The `console.warn` message emitted when `unsafeCSS` is detected. -/
def cssWarning : Str :=
  "minify-html-literals: unsafeCSS() detected in source. CSS minification will not be performed for this file.".data

/-- The `console.warn` message emitted when `unsafeHTML` is detected. -/
def htmlWarning : Str :=
  "minify-html-literals: unsafeHTML() detected in source. HTML minification will not be performed for this file.".data

/-- The `Result` record of `minifyHTMLLiterals`: the minified code and an
optional source map. The map's contents are produced by the external
magic-string collaborator and are opaque here. -/
structure MinifyResult where
  code : Str
  map : Option Unit
deriving DecidableEq, Repr

/-- `minifyHTMLLiterals(source, options)` after option resolution: parse
the templates, detect the whole-file escape markers (emitting warnings to
the diagnostic stream, returned here as the first component), process
every template into edit-buffer overwrites, render, and return `none`
when the rendered text is identical to the input source. -/
def minifyHTMLLiterals (cfg : Config) (source : Str) :
    List Str × Except Str (Option MinifyResult) :=
  let templates := cfg.parseLiterals source
  let skipCSS := cfg.strategy.minifyCSS.isSome && includes source unsafeCSSMarker
  let skipHTML := includes source unsafeHTMLMarker
  let warnings :=
    (if skipCSS then [cssWarning] else []) ++ (if skipHTML then [htmlWarning] else [])
  (warnings,
    match processTemplates cfg skipHTML skipCSS templates with
    | Except.error e => Except.error e
    | Except.ok ows =>
      let sourceMin := render source ows
      if source = sourceMin then Except.ok none
      else
        Except.ok (some
          { code := sourceMin
            map := if cfg.generateSourceMap then some () else none }))

/-- The V8 message for reading `.code` off `null`. -/
def nullCodeError : Str :=
  "TypeError: Cannot read properties of null (reading 'code')".data

/-- The Parcel transformer's `transform` from `src/src/index.ts`, modelled
on the asset's code: it awaits `minifyHTMLLiterals(source)` and
immediately calls `asset.setCode(res.code)` with no null check, so a
`null` result throws a `TypeError` instead of leaving the asset unchanged.
`cfg` stands for the library-default configuration (default strategy and
the external `parse-literals`), which `transform` does not override. -/
def transform (cfg : Config) (source : Str) : Except Str Str :=
  match (minifyHTMLLiterals cfg source).2 with
  | Except.error e => Except.error e
  | Except.ok none => Except.error nullCodeError
  | Except.ok (some res) => Except.ok res.code

/-- Concrete template part used by witnesses. -/
def singlePart : TemplatePart := { start := 0, stop := 1, text := ['a'] }

/-- Concrete parts used by the round-trip witness. -/
def roundTripParts : List TemplatePart :=
  [{ start := 0, stop := 1, text := ['a'] }, { start := 4, stop := 5, text := ['b'] }]

/-- Minifier options with every orchestrator-visible field at its plainest
value; used by witness configurations. -/
def plainMinifyOptions : HTMLOptionsM :=
  { minifyCSS := MinifyCSSSetting.undef, collapseWhitespace := true, rest := [] }

/-- A strategy whose `splitHTMLByPlaceholder` always returns the empty
array; exercises the part-count validation. -/
def badSplitStrategy : Strategy where
  getPlaceholder := fun _ => ['P']
  combineHTMLStrings := fun parts placeholder => joinSep placeholder (parts.map (fun part => part.text))
  minifyHTML := fun html _ => Except.ok html
  minifyCSS := none
  splitHTMLByPlaceholder := fun _ _ => []

/-- A strategy with a style minifier that rewrites any document to "b";
used to exhibit a style-classified template changing under minification. -/
def cssOnlyStrategy : Strategy where
  getPlaceholder := fun _ => ['P']
  combineHTMLStrings := fun parts placeholder => joinSep placeholder (parts.map (fun part => part.text))
  minifyHTML := fun html _ => Except.ok html
  minifyCSS := some (fun _ _ => Except.ok ['b'])
  splitHTMLByPlaceholder := fun html _ => [html]

/-- A configuration whose literal parser finds no templates. -/
def emptyParseConfig : Config where
  parseLiterals := fun _ => []
  strategy := cssOnlyStrategy
  shouldMinify := defaultShouldMinify
  shouldMinifyCSS := defaultShouldMinifyCSS
  minifyOptions := plainMinifyOptions
  validate := ValidateSetting.default
  generateSourceMap := false

/-- A template that the default predicates classify both as markup (tag
contains "html") and as style (tag contains "css"). -/
def unsafeHTMLTemplate : Template :=
  { tag := some ("htmlcss".data), parts := [{ start := 0, stop := 1, text := ['a'] }] }

/-- Configuration delivering `unsafeHTMLTemplate` with the style-capable
strategy and the default classification predicates. -/
def unsafeHTMLConfig : Config :=
  { emptyParseConfig with
    parseLiterals := fun _ => [unsafeHTMLTemplate] }

/-- A source containing the markup-escape marker, whose first character is
the dual-classified template's single part. -/
def unsafeHTMLSource : Str := "a unsafeHTML".data

/-- A template classified as markup by the default predicate. -/
def badSplitTemplate : Template :=
  { tag := some ("html".data), parts := [{ start := 0, stop := 1, text := ['a'] }] }

/-- Configuration running `badSplitStrategy` on one markup template with
the default validation. -/
def badSplitConfig : Config where
  parseLiterals := fun _ => [badSplitTemplate]
  strategy := badSplitStrategy
  shouldMinify := defaultShouldMinify
  shouldMinifyCSS := defaultShouldMinifyCSS
  minifyOptions := plainMinifyOptions
  validate := ValidateSetting.default
  generateSourceMap := false

/-- Source for the part-count-mismatch witness. -/
def badSplitSource : Str := ['x']

/-- A clean-css backend stub reporting one hard error. -/
def errorBackend : CSSOptions → Str → CleanCSSOutput :=
  fun _ _ => { errors := ["boom".data], warnings := [], styles := [] }

/-- A clean-css backend stub reporting one warning and no errors. -/
def warnBackend : CSSOptions → Str → CleanCSSOutput :=
  fun _ _ => { errors := [], warnings := ["careful".data], styles := [] }

/-- Caller-side clean-css options with no fields set. -/
def emptyCSSOptions : CSSOptions := { level := none, returnPromise := false, rest := [] }

theorem includes_iff (s sub : Str) : includes s sub = true ↔ sub <:+: s := by
  induction s with
  | nil => simp [includes]
  | cons c rest ih =>
    simp only [includes, Bool.or_eq_true, List.isPrefixOf_iff_prefix, ih]
    exact (List.infix_cons_iff).symm

theorem includes_eq_false_iff (s sub : Str) : includes s sub = false ↔ ¬ sub <:+: s := by
  rw [← includes_iff]
  cases includes s sub <;> simp

theorem border_no_early_match (c : Char) (q t u : Str) (hc : c ∉ q) (hne : t ≠ [])
    (hinf : ¬ (c :: q) <:+: t) : ¬ ((c :: q) <+: t ++ ((c :: q) ++ u)) := by
  intro hpre
  rcases List.prefix_or_prefix_of_prefix hpre (List.prefix_append t ((c :: q) ++ u)) with h | h
  · exact hinf h.isInfix
  · rcases h with ⟨w, hw⟩
    cases w with
    | nil =>
      rw [List.append_nil] at hw
      exact hinf (hw ▸ List.infix_rfl)
    | cons w0 w' =>
      rcases hpre with ⟨v, hv⟩
      have hv' : (t ++ (w0 :: w')) ++ v = t ++ ((c :: q) ++ u) := by rw [hw]; exact hv
      rw [List.append_assoc] at hv'
      have hwv : (w0 :: w') ++ v = (c :: q) ++ u := List.append_cancel_left hv'
      have hw0 : w0 = c := by simpa using congrArg List.head? hwv
      cases t with
      | nil => exact hne rfl
      | cons t0 t' =>
        have hqq : q = t' ++ (w0 :: w') := by
          have hcons : t0 :: (t' ++ (w0 :: w')) = c :: q := hw
          injection hcons with h1 h2
          exact h2.symm
        refine hc ?_
        rw [hqq]
        exact List.mem_append_right t' (by rw [← hw0]; exact List.mem_cons_self w0 w')

theorem splitChunk_no_occ (sub s : Str) (h : ¬ sub <:+: s) : splitChunk sub s = (s, none) := by
  induction s with
  | nil => rfl
  | cons c rest ih =>
    have hrest : ¬ sub <:+: rest := fun hr => h (List.infix_cons hr)
    have hp : sub.isPrefixOf (c :: rest) = false := by
      cases hb : sub.isPrefixOf (c :: rest)
      · rfl
      · exact absurd ((List.isPrefixOf_iff_prefix).mp hb).isInfix h
    simp [splitChunk, hp, ih hrest]

theorem splitChunk_at_join (c : Char) (q t u : Str) (hc : c ∉ q)
    (hinf : ¬ (c :: q) <:+: t) :
    splitChunk (c :: q) (t ++ ((c :: q) ++ u)) = (t, some u) := by
  induction t with
  | nil =>
    have hp : (c :: q).isPrefixOf (c :: (q ++ u)) = true :=
      (List.isPrefixOf_iff_prefix).mpr (List.prefix_append (c :: q) u)
    have hu : (c :: (q ++ u)).drop (c :: q).length = u := List.drop_left (c :: q) u
    show splitChunk (c :: q) (c :: (q ++ u)) = ([], some u)
    simp [splitChunk, hp, hu]
  | cons t0 t' ih =>
    have hinf' : ¬ (c :: q) <:+: t' := fun hr => hinf (List.infix_cons hr)
    have hp : (c :: q).isPrefixOf (t0 :: (t' ++ ((c :: q) ++ u))) = false := by
      cases hb : (c :: q).isPrefixOf (t0 :: (t' ++ ((c :: q) ++ u)))
      · rfl
      · exact absurd ((List.isPrefixOf_iff_prefix).mp hb)
          (border_no_early_match c q (t0 :: t') u hc (by simp) hinf)
    show splitChunk (c :: q) (t0 :: (t' ++ ((c :: q) ++ u))) = (t0 :: t', some u)
    simp only [splitChunk]
    rw [hp]
    simp only [Bool.false_eq_true, if_false]
    rw [ih hinf']

theorem splitLoop_no_occ (sub s : Str) (fuel : Nat) (h : ¬ sub <:+: s) :
    splitLoop sub fuel s = [s] := by
  cases fuel with
  | zero => rfl
  | succ f => simp only [splitLoop, splitChunk_no_occ sub s h]

theorem joinSep_cons_cons (sep t r : Str) (rs : List Str) :
    joinSep sep (t :: r :: rs) = t ++ (sep ++ joinSep sep (r :: rs)) := by
  simp [joinSep, List.append_assoc]

theorem splitLoop_join (c : Char) (q : Str) (hc : c ∉ q) :
    ∀ (texts : List Str) (fuel : Nat), texts ≠ [] →
      texts.length ≤ fuel + 1 →
      (∀ t ∈ texts, ¬ (c :: q) <:+: t) →
      splitLoop (c :: q) fuel (joinSep (c :: q) texts) = texts := by
  intro texts
  induction texts with
  | nil => intro fuel h _ _; exact absurd rfl h
  | cons t rest ih =>
    intro fuel _ hlen hall
    cases rest with
    | nil => exact splitLoop_no_occ _ _ fuel (hall t (by simp))
    | cons r rs =>
      cases fuel with
      | zero =>
        exfalso
        simp only [List.length_cons] at hlen
        omega
      | succ f =>
        rw [joinSep_cons_cons]
        simp only [splitLoop]
        rw [splitChunk_at_join c q t (joinSep (c :: q) (r :: rs)) hc (hall t (by simp))]
        show t :: splitLoop (c :: q) f (joinSep (c :: q) (r :: rs)) = t :: r :: rs
        rw [ih f (by simp) (by simp only [List.length_cons] at hlen ⊢; omega)
          (fun x hx => hall x (List.mem_cons_of_mem t hx))]

theorem joinSep_length_ge (sep : Str) (hsep : sep ≠ []) :
    ∀ texts : List Str, texts.length ≤ (joinSep sep texts).length + 1 := by
  have hpos : 0 < sep.length := List.length_pos.mpr hsep
  intro texts
  induction texts with
  | nil => simp [joinSep]
  | cons t rest ih =>
    cases rest with
    | nil => simp [joinSep]
    | cons r rs =>
      rw [joinSep_cons_cons]
      simp only [List.length_cons, List.length_append] at ih ⊢
      omega

theorem splitOnStr_join (c : Char) (q : Str) (texts : List Str) (hc : c ∉ q)
    (hne : texts ≠ []) (hall : ∀ t ∈ texts, ¬ (c :: q) <:+: t) :
    splitOnStr (c :: q) (joinSep (c :: q) texts) = texts := by
  have hlen := joinSep_length_ge (c :: q) (by simp) texts
  simp only [splitOnStr, List.isEmpty_cons, Bool.false_eq_true, if_false]
  exact splitLoop_join c q hc texts _ hne (by omega) hall

theorem splitOnStr_single (sub s : Str) (hsub : sub ≠ []) (h : ¬ sub <:+: s) :
    splitOnStr sub s = [s] := by
  simp only [splitOnStr, List.isEmpty_eq_true]
  rw [if_neg hsub]
  exact splitLoop_no_occ sub s _ h

theorem flatMap_singleton_eq (f : Str → List Str) :
    ∀ l : List Str, (∀ x ∈ l, f x = [x]) → l.flatMap f = l := by
  intro l
  induction l with
  | nil => intro _; rfl
  | cons x xs ih =>
    intro h
    simp only [List.flatMap_cons, h x (by simp), ih (fun y hy => h y (List.mem_cons_of_mem x hy))]
    rfl

theorem placeholderSuffix_length : placeholderSuffix.length = 3 := rfl

theorem le_maxTextLen (parts : List TemplatePart) (part : TemplatePart) (h : part ∈ parts) :
    part.text.length ≤ maxTextLen parts := by
  induction parts with
  | nil => cases h
  | cons p rest ih =>
    have hstep : maxTextLen (p :: rest) = Nat.max p.text.length (maxTextLen rest) := rfl
    rw [hstep]
    rcases List.mem_cons.mp h with rfl | hmem
    · exact Nat.le_max_left _ _
    · exact le_trans (ih hmem) (Nat.le_max_right _ _)

theorem getPlaceholderLoop_unfold (parts : List TemplatePart) (fuel : Nat) (ph : Str) :
    getPlaceholderLoop parts fuel ph =
      if parts.any (fun part => includes part.text (ph ++ placeholderSuffix)) then
        match fuel with
        | 0 => ph ++ placeholderSuffix
        | fuel' + 1 => getPlaceholderLoop parts fuel' (ph ++ ['_'])
      else ph ++ placeholderSuffix := by
  rw [getPlaceholderLoop.eq_def]

theorem getPlaceholderLoop_not_included (parts : List TemplatePart) :
    ∀ (fuel : Nat) (ph : Str), maxTextLen parts < ph.length + 3 + fuel →
      ∀ part ∈ parts, includes part.text (getPlaceholderLoop parts fuel ph) = false := by
  intro fuel
  induction fuel with
  | zero =>
    intro ph hb part hmem
    rw [getPlaceholderLoop_unfold]
    cases hcond : parts.any (fun part => includes part.text (ph ++ placeholderSuffix)) with
    | false =>
      simp only [hcond, Bool.false_eq_true, if_false]
      simpa using List.any_eq_false.mp hcond part hmem
    | true =>
      exfalso
      rcases List.any_eq_true.mp hcond with ⟨p0, hp0, hinc⟩
      have hlen := ((includes_iff _ _).mp hinc).length_le
      have hle := le_maxTextLen parts p0 hp0
      rw [List.length_append, placeholderSuffix_length] at hlen
      omega
  | succ f ih =>
    intro ph hb part hmem
    rw [getPlaceholderLoop_unfold]
    cases hcond : parts.any (fun part => includes part.text (ph ++ placeholderSuffix)) with
    | false =>
      simp only [hcond, Bool.false_eq_true, if_false]
      simpa using List.any_eq_false.mp hcond part hmem
    | true =>
      simp only [hcond, if_true]
      show includes part.text (getPlaceholderLoop parts f (ph ++ ['_'])) = false
      exact ih (ph ++ ['_']) (by rw [List.length_append]; simp; omega) part hmem

theorem getPlaceholderLoop_stable (parts : List TemplatePart) :
    ∀ (fuel : Nat) (ph : Str), maxTextLen parts < ph.length + 3 + fuel →
      ∀ k, getPlaceholderLoop parts (fuel + k) ph = getPlaceholderLoop parts fuel ph := by
  intro fuel
  induction fuel with
  | zero =>
    intro ph hb k
    rw [Nat.zero_add]
    rw [getPlaceholderLoop_unfold]
    rw [getPlaceholderLoop_unfold]
    cases hcond : parts.any (fun part => includes part.text (ph ++ placeholderSuffix)) with
    | false => simp [hcond]
    | true =>
      exfalso
      rcases List.any_eq_true.mp hcond with ⟨p0, hp0, hinc⟩
      have hlen := ((includes_iff _ _).mp hinc).length_le
      have hle := le_maxTextLen parts p0 hp0
      rw [List.length_append, placeholderSuffix_length] at hlen
      omega
  | succ f ih =>
    intro ph hb k
    have harr : f + 1 + k = f + k + 1 := by omega
    rw [harr]
    rw [getPlaceholderLoop_unfold]
    rw [getPlaceholderLoop_unfold]
    cases hcond : parts.any (fun part => includes part.text (ph ++ placeholderSuffix)) with
    | false => simp [hcond]
    | true =>
      simp only [hcond, if_true]
      show getPlaceholderLoop parts (f + k) (ph ++ ['_']) =
        getPlaceholderLoop parts f (ph ++ ['_'])
      exact ih (ph ++ ['_']) (by rw [List.length_append]; simp; omega) k

theorem render_nil (source : Str) : render source [] = source := rfl

theorem processTemplate_skipped (cfg : Config) (skipHTML skipCSS : Bool) (t : Template)
    (h : templateSelected cfg skipHTML skipCSS t = false) :
    processTemplate cfg skipHTML skipCSS t = Except.ok [] := by
  unfold processTemplate
  rw [h]
  simp

theorem processTemplates_all_skipped (cfg : Config) (skipHTML skipCSS : Bool) :
    ∀ ts : List Template, (∀ t ∈ ts, templateSelected cfg skipHTML skipCSS t = false) →
      processTemplates cfg skipHTML skipCSS ts = Except.ok [] := by
  intro ts
  induction ts with
  | nil => intro _; rfl
  | cons t rest ih =>
    intro h
    simp only [processTemplates]
    rw [processTemplate_skipped cfg skipHTML skipCSS t (h t (by simp)),
      ih (fun x hx => h x (List.mem_cons_of_mem t hx))]
    rfl

theorem minifyHTMLLiterals_snd (cfg : Config) (source : Str) :
    (minifyHTMLLiterals cfg source).2 =
      match processTemplates cfg (includes source unsafeHTMLMarker)
          (cfg.strategy.minifyCSS.isSome && includes source unsafeCSSMarker)
          (cfg.parseLiterals source) with
      | Except.error e => Except.error e
      | Except.ok ows =>
        if source = render source ows then Except.ok none
        else Except.ok (some ⟨render source ows,
          if cfg.generateSourceMap then some () else none⟩) := rfl

theorem minifyHTMLLiterals_fst (cfg : Config) (source : Str) :
    (minifyHTMLLiterals cfg source).1 =
      (if cfg.strategy.minifyCSS.isSome && includes source unsafeCSSMarker
        then [cssWarning] else []) ++
      (if includes source unsafeHTMLMarker then [htmlWarning] else []) := rfl

theorem minifyHTMLLiterals_none_of_render_eq (cfg : Config) (source : Str)
    (ows : List Overwrite)
    (h : processTemplates cfg (includes source unsafeHTMLMarker)
        (cfg.strategy.minifyCSS.isSome && includes source unsafeCSSMarker)
        (cfg.parseLiterals source) = Except.ok ows)
    (hr : render source ows = source) :
    (minifyHTMLLiterals cfg source).2 = Except.ok none := by
  rw [minifyHTMLLiterals_snd, h]
  simp [hr]

theorem minifyHTMLLiterals_snd_error (cfg : Config) (source : Str) (e : Str)
    (h : processTemplates cfg (includes source unsafeHTMLMarker)
        (cfg.strategy.minifyCSS.isSome && includes source unsafeCSSMarker)
        (cfg.parseLiterals source) = Except.error e) :
    (minifyHTMLLiterals cfg source).2 = Except.error e := by
  rw [minifyHTMLLiterals_snd, h]

theorem processTemplates_error_of_mem (cfg : Config) (skipHTML skipCSS : Bool) :
    ∀ (ts : List Template) (t : Template) (e : Str), t ∈ ts →
      processTemplate cfg skipHTML skipCSS t = Except.error e →
      ∃ e', processTemplates cfg skipHTML skipCSS ts = Except.error e' := by
  intro ts
  induction ts with
  | nil => intro t e h _; cases h
  | cons t0 rest ih =>
    intro t e hmem herr
    rcases List.mem_cons.mp hmem with rfl | hmem'
    · exact ⟨e, by simp only [processTemplates]; rw [herr]⟩
    · cases h0 : processTemplate cfg skipHTML skipCSS t0 with
      | error e0 => exact ⟨e0, by simp only [processTemplates]; rw [h0]⟩
      | ok ows0 =>
        rcases ih t e hmem' herr with ⟨e', h'⟩
        exact ⟨e', by simp only [processTemplates]; rw [h0, h']⟩

theorem processTemplate_mismatch (cfg : Config) (skipHTML skipCSS : Bool) (t : Template)
    (m : Str)
    (hval : cfg.validate = ValidateSetting.default)
    (hsel : templateSelected cfg skipHTML skipCSS t = true)
    (hmin : minifyStep cfg.strategy cfg.minifyOptions (wantsCSS cfg skipCSS t)
        (cfg.strategy.combineHTMLStrings t.parts (cfg.strategy.getPlaceholder t.parts)) =
        Except.ok m)
    (hlen : (cfg.strategy.splitHTMLByPlaceholder m (cfg.strategy.getPlaceholder t.parts)).length ≠
        t.parts.length) :
    ∃ e, processTemplate cfg skipHTML skipCSS t = Except.error e := by
  unfold processTemplate
  rw [hsel, hval]
  simp only [if_true, ValidateSetting.resolve, defaultValidation]
  cases hemp : (cfg.strategy.getPlaceholder t.parts).isEmpty with
  | true =>
    refine ⟨"getPlaceholder() must return a non-empty string".data, ?_⟩
    simp only [hemp, if_true]
  | false =>
    refine
      ⟨"splitHTMLByPlaceholder() must return same number of strings as template parts".data, ?_⟩
    simp only [hemp, Bool.false_eq_true, if_false]
    split
    · rename_i e heq
      rw [hmin] at heq
      exact Except.noConfusion heq
    · rename_i min heq
      rw [hmin] at heq
      injection heq with hm
      subst hm
      have hne : t.parts.length ≠
          (cfg.strategy.splitHTMLByPlaceholder m (cfg.strategy.getPlaceholder t.parts)).length :=
        fun hh => hlen hh.symm
      rw [if_pos hne]

theorem collectOverwritesAux_bounds (minParts : List Str) :
    ∀ (parts : List TemplatePart) (index : Nat) (ows : List Overwrite),
      collectOverwritesAux minParts parts index = Except.ok ows →
      ∀ ow ∈ ows, ow.start < ow.stop := by
  intro parts
  induction parts with
  | nil =>
    intro index ows h ow hmem
    simp only [collectOverwritesAux] at h
    injection h with h'
    subst h'
    cases hmem
  | cons p rest ih =>
    intro index ows h ow hmem
    simp only [collectOverwritesAux] at h
    by_cases hlt : p.start < p.stop
    · rw [if_pos hlt] at h
      split at h
      · rename_i content heqContent
        split at h
        · exact Except.noConfusion h
        · rename_i tail heqTail
          injection h with h'
          subst h'
          rcases List.mem_cons.mp hmem with rfl | hmem'
          · exact hlt
          · exact ih (index + 1) tail heqTail ow hmem'
      · exact Except.noConfusion h
    · rw [if_neg hlt] at h
      exact ih (index + 1) ows h ow hmem

theorem processTemplate_bounds (cfg : Config) (skipHTML skipCSS : Bool) (t : Template)
    (ows : List Overwrite) (h : processTemplate cfg skipHTML skipCSS t = Except.ok ows) :
    ∀ ow ∈ ows, ow.start < ow.stop := by
  unfold processTemplate at h
  by_cases hsel : templateSelected cfg skipHTML skipCSS t = true
  · simp only [hsel, if_true] at h
    split at h
    · exact Except.noConfusion h
    · split at h
      · exact Except.noConfusion h
      · split at h
        · exact Except.noConfusion h
        · unfold collectOverwrites at h
          exact collectOverwritesAux_bounds _ _ _ _ h
  · rw [if_neg hsel] at h
    injection h with h'
    subst h'
    exact fun ow hmem => absurd hmem (List.not_mem_nil ow)

theorem processTemplates_bounds (cfg : Config) (skipHTML skipCSS : Bool) :
    ∀ (ts : List Template) (ows : List Overwrite),
      processTemplates cfg skipHTML skipCSS ts = Except.ok ows →
      ∀ ow ∈ ows, ow.start < ow.stop := by
  intro ts
  induction ts with
  | nil =>
    intro ows h ow hmem
    simp only [processTemplates] at h
    injection h with h'
    subst h'
    cases hmem
  | cons t rest ih =>
    intro ows h ow hmem
    simp only [processTemplates] at h
    split at h
    · exact Except.noConfusion h
    · rename_i ows1 heq1
      split at h
      · exact Except.noConfusion h
      · rename_i owsRest heq2
        injection h with h'
        subst h'
        rcases List.mem_append.mp hmem with hmem1 | hmem2
        · exact processTemplate_bounds cfg skipHTML skipCSS t ows1 heq1 ow hmem1
        · exact ih owsRest heq2 ow hmem2

theorem processTemplate_shouldMinify_irrel (cfg : Config) (skipCSS : Bool) (t : Template) :
    processTemplate cfg true skipCSS t =
      processTemplate { cfg with shouldMinify := fun _ => false } true skipCSS t := rfl

theorem processTemplates_shouldMinify_irrel (cfg : Config) (skipCSS : Bool) :
    ∀ ts, processTemplates cfg true skipCSS ts =
      processTemplates { cfg with shouldMinify := fun _ => false } true skipCSS ts := by
  intro ts
  induction ts with
  | nil => rfl
  | cons t rest ih =>
    simp only [processTemplates]
    rw [← processTemplate_shouldMinify_irrel cfg skipCSS t, ← ih]

theorem minifyHTMLLiterals_skipHTML_irrel (cfg : Config) (source : Str)
    (h : includes source unsafeHTMLMarker = true) :
    minifyHTMLLiterals cfg source =
      minifyHTMLLiterals { cfg with shouldMinify := fun _ => false } source := by
  have hfst : (minifyHTMLLiterals cfg source).1 =
      (minifyHTMLLiterals { cfg with shouldMinify := fun _ => false } source).1 := rfl
  have hsnd : (minifyHTMLLiterals cfg source).2 =
      (minifyHTMLLiterals { cfg with shouldMinify := fun _ => false } source).2 := by
    rw [minifyHTMLLiterals_snd, minifyHTMLLiterals_snd, h]
    rw [processTemplates_shouldMinify_irrel cfg
      (cfg.strategy.minifyCSS.isSome && includes source unsafeCSSMarker)
      (cfg.parseLiterals source)]
  exact Prod.ext hfst hsnd

/-- Claim C1, as frozen, is false on the code: with the placeholder "X;"
(absent from the single part's text "aXb") the semicolon fallback pass of
`splitHTMLByPlaceholder` additionally splits on "X", which does occur in
the text, so the round trip returns two pieces instead of the original
one. -/
theorem c1_counterexample :
    ¬ (∀ (parts : List TemplatePart) (placeholder : Str),
        (∀ part ∈ parts, includes part.text placeholder = false) →
        splitHTMLByPlaceholder (combineHTMLStrings parts placeholder) placeholder =
          parts.map (fun part => part.text)) := by
  intro hclaim
  have h := hclaim [{ start := 0, stop := 3, text := "aXb".data }] ("X;".data) (by decide)
  exact absurd h (by decide)

/-- Claim C1 (amended): the round trip
`splitHTMLByPlaceholder (combineHTMLStrings parts p) p` reproduces the
parts' text array exactly, for a nonempty array of parts and a placeholder
`p` whose first character does not reappear inside `p`, which does not
occur as a substring of any part's text, and which — when it ends with a
semicolon — also does not occur without that final semicolon in any
part's text. -/
theorem c1_roundtrip (parts : List TemplatePart) (c : Char) (q : Str)
    (hne : parts ≠ [])
    (hc : c ∉ q)
    (hfull : ∀ part ∈ parts, ¬ ((c :: q) <:+: part.text))
    (hdrop : (c :: q).getLast? = some ';' →
      ∀ part ∈ parts, ¬ ((c :: q).dropLast <:+: part.text)) :
    splitHTMLByPlaceholder (combineHTMLStrings parts (c :: q)) (c :: q) =
      parts.map (fun part => part.text) := by
  have htextsNe : parts.map (fun part => part.text) ≠ [] := by
    cases parts with
    | nil => exact absurd rfl hne
    | cons p ps => simp
  have hall : ∀ t ∈ parts.map (fun part => part.text), ¬ (c :: q) <:+: t := by
    intro t ht
    rcases List.mem_map.mp ht with ⟨part, hp, rfl⟩
    exact hfull part hp
  simp only [splitHTMLByPlaceholder, combineHTMLStrings]
  rw [splitOnStr_join c q (parts.map (fun part => part.text)) hc htextsNe hall]
  by_cases hsemi : (c :: q).getLast? = some ';'
  · rw [if_pos hsemi]
    have hq'ne : (c :: q).dropLast ≠ [] := by
      intro h0
      rcases List.exists_mem_of_ne_nil parts hne with ⟨p0, hp0⟩
      exact (hdrop hsemi p0 hp0) (by rw [h0]; exact List.nil_infix)
    refine flatMap_singleton_eq _ _ ?_
    intro t ht
    rcases List.mem_map.mp ht with ⟨part, hp, rfl⟩
    exact splitOnStr_single _ _ hq'ne (hdrop hsemi part hp)
  · rw [if_neg hsemi]

/-- Witness for the amended claim C1 at the placeholder "X;" and two parts
"a" and "b". -/
theorem c1_roundtrip_witness :
    roundTripParts ≠ [] ∧ ('X' ∉ [';']) ∧
    (∀ part ∈ roundTripParts, ¬ (('X' :: [';']) <:+: part.text)) ∧
    (('X' :: [';']).getLast? = some ';' →
      ∀ part ∈ roundTripParts, ¬ (('X' :: [';']).dropLast <:+: part.text)) ∧
    splitHTMLByPlaceholder (combineHTMLStrings roundTripParts ('X' :: [';'])) ('X' :: [';']) =
      roundTripParts.map (fun part => part.text) :=
  ⟨by decide, by decide, by decide, by decide,
    c1_roundtrip roundTripParts 'X' [';'] (by decide) (by decide) (by decide) (by decide)⟩

/-- Claim C2: with the default validation in effect, if the strategy's
`splitHTMLByPlaceholder` returns an array whose length differs from the
number of the template's parts (for a selected template whose
minification step succeeds), the whole `minifyHTMLLiterals` operation
fails with an error. -/
theorem c2_part_count_mismatch_fails (cfg : Config) (source : Str) (t : Template) (m : Str)
    (hval : cfg.validate = ValidateSetting.default)
    (hmem : t ∈ cfg.parseLiterals source)
    (hsel : templateSelected cfg (includes source unsafeHTMLMarker)
        (cfg.strategy.minifyCSS.isSome && includes source unsafeCSSMarker) t = true)
    (hmin : minifyStep cfg.strategy cfg.minifyOptions
        (wantsCSS cfg (cfg.strategy.minifyCSS.isSome && includes source unsafeCSSMarker) t)
        (cfg.strategy.combineHTMLStrings t.parts (cfg.strategy.getPlaceholder t.parts)) =
        Except.ok m)
    (hlen : (cfg.strategy.splitHTMLByPlaceholder m (cfg.strategy.getPlaceholder t.parts)).length ≠
        t.parts.length) :
    ∃ e, (minifyHTMLLiterals cfg source).2 = Except.error e := by
  rcases processTemplate_mismatch cfg (includes source unsafeHTMLMarker)
      (cfg.strategy.minifyCSS.isSome && includes source unsafeCSSMarker) t m hval hsel hmin hlen
    with ⟨e0, he0⟩
  rcases processTemplates_error_of_mem cfg (includes source unsafeHTMLMarker)
      (cfg.strategy.minifyCSS.isSome && includes source unsafeCSSMarker)
      (cfg.parseLiterals source) t e0 hmem he0 with ⟨e1, he1⟩
  exact ⟨e1, minifyHTMLLiterals_snd_error cfg source e1 he1⟩

/-- Witness for claim C2: a strategy that always splits into zero pieces
makes the whole operation fail on a one-part markup template. -/
theorem c2_part_count_mismatch_fails_witness :
    badSplitConfig.validate = ValidateSetting.default ∧
    badSplitTemplate ∈ badSplitConfig.parseLiterals badSplitSource ∧
    ∃ e, (minifyHTMLLiterals badSplitConfig badSplitSource).2 = Except.error e :=
  ⟨rfl, by decide,
    c2_part_count_mismatch_fails badSplitConfig badSplitSource badSplitTemplate ['a']
      rfl (by decide) (by decide) rfl (by decide)⟩

/-- Claim C3: the string returned by the default strategy's
`getPlaceholder` does not occur as a substring of any part's text. -/
theorem c3_placeholder_not_in_parts (parts : List TemplatePart) (part : TemplatePart)
    (h : part ∈ parts) :
    includes part.text (getPlaceholder parts) = false := by
  unfold getPlaceholder
  refine getPlaceholderLoop_not_included parts (maxTextLen parts + 1) placeholderBase ?_ part h
  have h20 : placeholderBase.length = 20 := rfl
  omega

/-- Witness for claim C3 on a one-part array. -/
theorem c3_placeholder_not_in_parts_witness :
    singlePart ∈ [singlePart] ∧
    includes singlePart.text (getPlaceholder [singlePart]) = false :=
  ⟨by decide, c3_placeholder_not_in_parts [singlePart] singlePart (by decide)⟩

/-- Claim C4: whenever `minifyHTMLLiterals` returns the absent result,
the Parcel transformer's `transform` of `src/src/index.ts` throws (it
reads `res.code` off `null` with no check) instead of returning the asset
unchanged. -/
theorem c4_transform_throws_on_null (cfg : Config) (source : Str)
    (h : (minifyHTMLLiterals cfg source).2 = Except.ok none) :
    transform cfg source = Except.error nullCodeError := by
  unfold transform
  rw [h]

/-- Witness for claim C4: a source with no templates yields the absent
result, on which `transform` throws. -/
theorem c4_transform_throws_on_null_witness :
    (minifyHTMLLiterals emptyParseConfig ['x']).2 = Except.ok none ∧
    transform emptyParseConfig ['x'] = Except.error nullCodeError :=
  ⟨rfl, c4_transform_throws_on_null emptyParseConfig ['x'] rfl⟩

/-- Claim C5: whenever processing succeeds and the rendered text equals
the input source — in particular when the source has zero templates, or
every template is skipped by classification — `minifyHTMLLiterals`
returns the absent result, not an error and not a result record. -/
theorem c5_identity_returns_none (cfg : Config) (source : Str) :
    (∀ ows, processTemplates cfg (includes source unsafeHTMLMarker)
        (cfg.strategy.minifyCSS.isSome && includes source unsafeCSSMarker)
        (cfg.parseLiterals source) = Except.ok ows →
      render source ows = source →
      (minifyHTMLLiterals cfg source).2 = Except.ok none) ∧
    (cfg.parseLiterals source = [] → (minifyHTMLLiterals cfg source).2 = Except.ok none) ∧
    ((∀ t ∈ cfg.parseLiterals source,
        templateSelected cfg (includes source unsafeHTMLMarker)
          (cfg.strategy.minifyCSS.isSome && includes source unsafeCSSMarker) t = false) →
      (minifyHTMLLiterals cfg source).2 = Except.ok none) := by
  refine ⟨?_, ?_, ?_⟩
  · intro ows h hr
    exact minifyHTMLLiterals_none_of_render_eq cfg source ows h hr
  · intro h
    refine minifyHTMLLiterals_none_of_render_eq cfg source [] ?_ (render_nil source)
    rw [h]
    rfl
  · intro h
    exact minifyHTMLLiterals_none_of_render_eq cfg source []
      (processTemplates_all_skipped cfg _ _ (cfg.parseLiterals source) h) (render_nil source)

/-- Witness for claim C5 at a zero-template source. -/
theorem c5_identity_returns_none_witness :
    emptyParseConfig.parseLiterals ['x'] = [] ∧
    (minifyHTMLLiterals emptyParseConfig ['x']).2 = Except.ok none :=
  ⟨rfl, (c5_identity_returns_none emptyParseConfig ['x']).2.1 rfl⟩

/-- Claim C6, as frozen, is false on the code: in a source containing
"unsafeHTML", a template classified as markup by the default predicate
(tag "htmlcss" contains "html") is nevertheless still minified when it is
also style-classified and a style minifier is available — the style
branch wins — so its text is not left identical to the input ("a" becomes
"b" in the output). -/
theorem c6_counterexample :
    includes unsafeHTMLSource unsafeHTMLMarker = true ∧
    unsafeHTMLConfig.parseLiterals unsafeHTMLSource = [unsafeHTMLTemplate] ∧
    unsafeHTMLConfig.shouldMinify unsafeHTMLTemplate = true ∧
    unsafeHTMLSource = 'a' :: " unsafeHTML".data ∧
    (minifyHTMLLiterals unsafeHTMLConfig unsafeHTMLSource).2 =
      Except.ok (some ⟨'b' :: " unsafeHTML".data, none⟩) :=
  ⟨by decide, rfl, by decide, rfl, rfl⟩

/-- Claim C6 (amended): a source containing "unsafeHTML" emits the HTML
warning to the diagnostic stream and disables the markup path: the whole
run is identical to one in which no template is markup-classified; in
particular every template not selected for style minification is left
untouched, while style-selected templates (style available and
"unsafeCSS" absent) are still style-minified — so a template classified
both as markup and as style may still change. -/
theorem c6_amended (cfg : Config) (source : Str)
    (h : includes source unsafeHTMLMarker = true) :
    htmlWarning ∈ (minifyHTMLLiterals cfg source).1 ∧
    minifyHTMLLiterals cfg source =
      minifyHTMLLiterals { cfg with shouldMinify := fun _ => false } source ∧
    (∀ t, wantsCSS cfg (cfg.strategy.minifyCSS.isSome && includes source unsafeCSSMarker) t =
        false →
      processTemplate cfg (includes source unsafeHTMLMarker)
        (cfg.strategy.minifyCSS.isSome && includes source unsafeCSSMarker) t =
        Except.ok []) := by
  refine ⟨?_, ?_, ?_⟩
  · rw [minifyHTMLLiterals_fst, h]
    simp
  · exact minifyHTMLLiterals_skipHTML_irrel cfg source h
  · intro t hcss
    apply processTemplate_skipped
    rw [h]
    unfold templateSelected
    unfold wantsCSS at hcss
    simp only [Bool.not_true, Bool.false_and, Bool.false_or]
    exact hcss

/-- Witness for the amended claim C6 on a concrete source containing
"unsafeHTML". -/
theorem c6_amended_witness :
    htmlWarning ∈ (minifyHTMLLiterals unsafeHTMLConfig unsafeHTMLSource).1 ∧
    minifyHTMLLiterals unsafeHTMLConfig unsafeHTMLSource =
      minifyHTMLLiterals { unsafeHTMLConfig with shouldMinify := fun _ => false }
        unsafeHTMLSource ∧
    (∀ t, wantsCSS unsafeHTMLConfig
        (unsafeHTMLConfig.strategy.minifyCSS.isSome &&
          includes unsafeHTMLSource unsafeCSSMarker) t = false →
      processTemplate unsafeHTMLConfig (includes unsafeHTMLSource unsafeHTMLMarker)
        (unsafeHTMLConfig.strategy.minifyCSS.isSome &&
          includes unsafeHTMLSource unsafeCSSMarker) t = Except.ok []) :=
  c6_amended unsafeHTMLConfig unsafeHTMLSource (by decide)

/-- Claim C7: every edit-buffer overwrite recorded by the per-template
loops has `start < end`; a part with `start = end` is never overwritten. -/
theorem c7_overwrites_only_nonempty (cfg : Config) (skipHTML skipCSS : Bool)
    (ts : List Template) (ows : List Overwrite)
    (h : processTemplates cfg skipHTML skipCSS ts = Except.ok ows) :
    ∀ ow ∈ ows, ow.start < ow.stop :=
  processTemplates_bounds cfg skipHTML skipCSS ts ows h

/-- Witness for claim C7 on a run recording exactly one overwrite. -/
theorem c7_overwrites_only_nonempty_witness :
    processTemplates unsafeHTMLConfig true false [unsafeHTMLTemplate] =
      Except.ok [{ start := 0, stop := 1, content := ['b'] }] ∧
    ∀ ow ∈ [({ start := 0, stop := 1, content := ['b'] } : Overwrite)],
      ow.start < ow.stop :=
  ⟨rfl, c7_overwrites_only_nonempty unsafeHTMLConfig true false [unsafeHTMLTemplate] _ rfl⟩

/-- Claim C8: `adjustMinifyCSSOptions` returns the caller's options with
the `level` field unconditionally replaced by the level-2 setting that
turns all level-2 transforms off (`all: false`) except duplicate-rule
removal (`removeDuplicateRules: true`), all other fields preserved. -/
theorem c8_level_override (options : CSSOptions) :
    (adjustMinifyCSSOptions options).level =
      some (CSSLevel.settings (some { all := some false, removeDuplicateRules := some true })) ∧
    (adjustMinifyCSSOptions options).returnPromise = options.returnPromise ∧
    (adjustMinifyCSSOptions options).rest = options.rest :=
  ⟨rfl, rfl, rfl⟩

/-- Claim C9: the default strategy's `minifyCSS` throws with the
backend's error messages joined by blank lines whenever the backend
reports any hard error; when it reports only warnings, it returns the
degraded minification of the original input — the input with newlines,
carriage returns and doubled spaces removed, then selector-spacing fixed
up — rather than failing. -/
theorem c9_error_policy (cleanCSS : CSSOptions → Str → CleanCSSOutput) (css : Str)
    (options : CSSOptions) :
    ((cleanCSS { adjustMinifyCSSOptions options with returnPromise := true } css).errors ≠ [] →
      minifyCSS cleanCSS css options =
        Except.error (joinSep ("\n\n".data)
          (cleanCSS { adjustMinifyCSSOptions options with returnPromise := true } css).errors)) ∧
    ((cleanCSS { adjustMinifyCSSOptions options with returnPromise := true } css).errors = [] →
      (cleanCSS { adjustMinifyCSSOptions options with returnPromise := true } css).warnings ≠ [] →
      minifyCSS cleanCSS css options =
        Except.ok (fixCleanCssTidySelectors css (stripNewlinesAndDoubleSpaces css))) := by
  constructor
  · intro herr
    have he : (cleanCSS { adjustMinifyCSSOptions options with returnPromise := true }
        css).errors.isEmpty = false := by
      rcases hcase : (cleanCSS { adjustMinifyCSSOptions options with returnPromise := true }
          css).errors with _ | ⟨x, xs⟩
      · exact absurd hcase herr
      · rfl
    simp only [minifyCSS, he, Bool.not_false, if_true]
  · intro herr hwarn
    have he : (cleanCSS { adjustMinifyCSSOptions options with returnPromise := true }
        css).errors.isEmpty = true := by rw [herr]; rfl
    have hw : (cleanCSS { adjustMinifyCSSOptions options with returnPromise := true }
        css).warnings.isEmpty = false := by
      rcases hcase : (cleanCSS { adjustMinifyCSSOptions options with returnPromise := true }
          css).warnings with _ | ⟨x, xs⟩
      · exact absurd hcase hwarn
      · rfl
    simp only [minifyCSS, he, Bool.not_true, Bool.false_eq_true, if_false, hw,
      Bool.not_false, if_true]

/-- Witness for claim C9 on a backend reporting one error and a backend
reporting one warning. -/
theorem c9_error_policy_witness :
    (errorBackend { adjustMinifyCSSOptions emptyCSSOptions with returnPromise := true }
        ['a']).errors ≠ [] ∧
    minifyCSS errorBackend ['a'] emptyCSSOptions = Except.error ("boom".data) ∧
    (warnBackend { adjustMinifyCSSOptions emptyCSSOptions with returnPromise := true }
        ['a']).warnings ≠ [] ∧
    minifyCSS warnBackend ['a'] emptyCSSOptions = Except.ok ['a'] :=
  ⟨by decide, (c9_error_policy errorBackend ['a'] emptyCSSOptions).1 (by decide),
    by decide, (c9_error_policy warnBackend ['a'] emptyCSSOptions).2 rfl (by decide)⟩

/-- Claim C10: the retest loop of the default strategy's `getPlaceholder`
terminates for every finite array of parts: from some finite fuel on, the
loop's result is stable (the while loop exits after finitely many
lengthening steps, having reached a token contained in no part's text). -/
theorem c10_loop_terminates (parts : List TemplatePart) (ph : Str) :
    ∃ n, ∀ k, getPlaceholderLoop parts (n + k) ph = getPlaceholderLoop parts n ph :=
  ⟨maxTextLen parts + 1, fun k =>
    getPlaceholderLoop_stable parts (maxTextLen parts + 1) ph (by omega) k⟩
